import Mathlib

/-!
Verification of the docx-to-Markdown converter core
(`convert_with_paragraph_breaks.py`, class `DocxToMarkdownConverter`).

The Python code is shallowly embedded below:
* Python strings become `String`, operating on their `List Char` data;
  `str.strip` / `str.lower` / `str.replace` / `'sep'.join` / `in`
  (substring test) are modelled by `pyStrip`, `pyLower`, `pyReplace`,
  `pyJoinSep`, `strContainsStr`.  The default `strip` character class is
  modelled as the ASCII whitespace characters (the Python set further
  contains rare Unicode spaces, irrelevant to everything proved here);
  `lower` is modelled by ASCII `Char.toLower` for the same reason.
* Python dicts keyed by ints/strings become association lists
  (`alLookup` / `alInsert` / `alErase`); insertion order is preserved
  exactly as CPython dicts do, and no proved statement depends on
  iteration order.
* The dynamic `element` dicts become the closed inductive
  `ContentElement`; each XML fragment that the code inspects (runs,
  run properties, paragraphs, table rows/cells, relationships) becomes
  a structure holding exactly the fields the code reads.
-/

/-! ## Python string primitives -/

/-- ASCII whitespace, the effective character class of `str.strip()` for
the documents at hand. -/
def pyWhitespace (c : Char) : Bool :=
  c = ' ' || c = '\t' || c = '\n' || c = '\r' || c = '\x0b' || c = '\x0c'

/-- `str.strip()` on the character list: drop whitespace from both ends. -/
def pyStripChars (l : List Char) : List Char :=
  ((l.dropWhile pyWhitespace).reverse.dropWhile pyWhitespace).reverse

/-- Python `s.strip()`. -/
def pyStrip (s : String) : String :=
  ⟨pyStripChars s.data⟩

/-- Python `s.lower()` (ASCII case folding). -/
def pyLower (s : String) : String :=
  ⟨s.data.map Char.toLower⟩

/-- Python `''.join(parts)`. -/
def strConcat : List String → String
  | [] => ""
  | s :: rest => s ++ strConcat rest

/-- Python `sep.join(parts)`. -/
def pyJoinSep (sep : String) : List String → String
  | [] => ""
  | [s] => s
  | s :: rest => s ++ sep ++ pyJoinSep sep rest

/-- Substring occurrence test on character lists (Python `pat in hay`). -/
def hasSubList (pat : List Char) : List Char → Bool
  | [] => pat.isEmpty
  | c :: t => pat.isPrefixOf (c :: t) || hasSubList pat t

/-- Python `pat in hay` for strings. -/
def strContainsStr (hay pat : String) : Bool :=
  hasSubList pat.data hay.data

/-- Python `s.replace(old, new)` on character lists: scan left to right,
replacing non-overlapping occurrences.  `fuel` is an upper bound on the
number of characters still to be consumed (each step consumes at least
one), keeping the recursion structural so that terms reduce in the
kernel.  The converter only calls `replace` with a non-empty `old`. -/
def pyReplaceAux (pat rep : List Char) : Nat → List Char → List Char
  | _, [] => []
  | 0, l => l
  | fuel + 1, c :: t =>
    if pat ≠ [] ∧ pat.isPrefixOf (c :: t) then
      rep ++ pyReplaceAux pat rep fuel (t.drop (pat.length - 1))
    else
      c :: pyReplaceAux pat rep fuel t

/-- Python `s.replace(old, new)`. -/
def pyReplace (s pat rep : String) : String :=
  ⟨pyReplaceAux pat.data rep.data s.data.length s.data⟩

/-- `os.path.basename` on a POSIX path: the part after the last `/`. -/
def pyBasename (s : String) : String :=
  ⟨(s.data.reverse.takeWhile (fun c => c ≠ '/')).reverse⟩

/-- Python `s.startswith(pre)`. -/
def pyStartsWith (s pre : String) : Bool :=
  pre.data.isPrefixOf s.data

/-! ## Association lists (Python dicts) -/

/-- Dict lookup: first entry with the given key. -/
def alLookup {κ α : Type} [DecidableEq κ] (k : κ) : List (κ × α) → Option α
  | [] => none
  | (k', v) :: t => if k' = k then some v else alLookup k t

/-- Dict assignment `d[k] = v`: update in place, else append. -/
def alInsert {κ α : Type} [DecidableEq κ] (k : κ) (v : α) :
    List (κ × α) → List (κ × α)
  | [] => [(k, v)]
  | (k', v') :: t => if k' = k then (k, v) :: t else (k', v') :: alInsert k v t

/-- Dict deletion `del d[k]` (no-op when the key is absent, matching the
guarded `if k in d: del d[k]` uses in the source). -/
def alErase {κ α : Type} [DecidableEq κ] (k : κ) (l : List (κ × α)) :
    List (κ × α) :=
  l.filter (fun p => decide (p.1 ≠ k))

/-! ## Content elements (the dynamic `element` dicts) -/

/-- The typed content elements produced by extraction and consumed by
`convert_to_markdown`.  Field order follows the source dict keys. -/
inductive ContentElement where
  | title (content : String)
  | heading1 (content : String)
  | heading2 (content : String)
  | heading3 (content : String)
  | numberedList (content : String) (level : Nat) (numId : Nat)
  | text (content : String)
  | image (filename : String) (path : String)
  | code (content : String) (language : String)
  | table (data : List (List String))
  deriving Repr, DecidableEq

/-! ## XML fragments read by the extractor -/

/-- A `w:rPr` node: optional `w:b` and `w:i` children, each carrying an
optional `w:val` attribute (`none` inside means the attribute is absent,
in which case the code defaults it to `"true"`). -/
structure RunProps where
  b : Option (Option String)
  i : Option (Option String)
  deriving Repr, DecidableEq

/-- A `w:r` run: optional run properties and the text values of its
`w:t` descendants (`none` models a `w:t` whose `.text` is `None`). -/
structure Run where
  rPr : Option RunProps
  texts : List (Option String)
  deriving Repr, DecidableEq

/-- A style entry from `styles.xml` as stored in `self.styles`. -/
structure StyleInfo where
  name : String
  type : String
  deriving Repr, DecidableEq

/-- A `w:p` paragraph as read by `_process_paragraph_formatted`:
`drawing = none` — no `w:drawing` child; `drawing = some none` — a
drawing whose `a:blip` or `r:embed` attribute is missing; `drawing =
some (some rid)` — a drawing embedding relationship `rid`.  `style` is
the result of the `_get_paragraph_style` lookup and `numbering` the
result of `_get_numbering_info` (level, numId). -/
structure DocParagraph where
  drawing : Option (Option String)
  runs : List Run
  style : Option StyleInfo
  numbering : Option (Nat × Nat)
  deriving Repr, DecidableEq

/-- One `Relationship` node of `document.xml.rels`. -/
structure Relationship where
  relType : String
  id : String
  target : String
  deriving Repr, DecidableEq

/-! ## Element extraction -/

/-- Bold flag of a run (`_extract_text_with_formatting`, lines 179-184):
a `w:b` child present with `val` attribute (defaulted to `"true"`)
different from `"false"`. -/
def isBold (r : Run) : Bool :=
  match r.rPr with
  | none => false
  | some props =>
    match props.b with
    | none => false
    | some val? => (val?.getD "true") != "false"

/-- Italic flag of a run (lines 186-190). -/
def isItalic (r : Run) : Bool :=
  match r.rPr with
  | none => false
  | some props =>
    match props.i with
    | none => false
    | some val? => (val?.getD "true") != "false"

/-- Inline-emphasis wrapping applied to one `w:t` text (lines 197-203). -/
def wrapRunText (bold italic : Bool) (t : String) : String :=
  if bold && italic then "***" ++ t ++ "***"
  else if bold then "**" ++ t ++ "**"
  else if italic then "*" ++ t ++ "*"
  else t

/-- The wrapped texts collected from a run: each truthy `w:t` text,
wrapped according to the run's flags (lines 192-205). -/
def runParts (r : Run) : List String :=
  ((r.texts.filterMap id).filter (fun t => t != "")).map
    (wrapRunText (isBold r) (isItalic r))

/-- `_extract_text_with_formatting`: concatenate the per-run joined
parts (a run with no truthy text contributes nothing). -/
def extract_text_with_formatting (runs : List Run) : String :=
  strConcat (runs.map (fun r =>
    let parts := runParts r
    if parts.isEmpty then "" else strConcat parts))

/-- All `w:t` nodes of a paragraph (every `w:t` of `document.xml` sits
inside a `w:r`, so the descendant search flattens the runs). -/
def collectTexts : List Run → List (Option String)
  | [] => []
  | r :: rest => r.texts ++ collectTexts rest

/-- The truthy `w:t` texts of one paragraph (`_process_table`,
lines 278-281). -/
def paraPlainTexts (p : List Run) : List String :=
  (collectTexts p).filterMap id |>.filter (fun t => t != "")

/-- The per-paragraph joined texts of a 1x1 table cell, keeping only
paragraphs with at least one truthy text (lines 276-283). -/
def cellCodeTexts (cell : List (List Run)) : List String :=
  cell.filterMap (fun p =>
    let pts := paraPlainTexts p
    if pts.isEmpty then none else some (strConcat pts))

/-- One cell of a regular table: formatted paragraph texts, truthy ones
only, joined by single spaces (`_process_regular_table`, lines 308-314). -/
def cellFormattedText (cell : List (List Run)) : String :=
  pyJoinSep " " (cell.filterMap (fun p =>
    let t := extract_text_with_formatting p
    if t = "" then none else some t))

/-- `_process_regular_table`: rows of joined cell texts; rows with zero
cells are skipped; an empty data list produces no element. -/
def process_regular_table (rows : List (List (List (List Run)))) :
    List ContentElement :=
  let tableData := rows.filterMap (fun row =>
    let rowData := row.map cellFormattedText
    if rowData.isEmpty then none else some rowData)
  if tableData.isEmpty then [] else [ContentElement.table tableData]

/-- `_process_table`: a table with exactly one row holding exactly one
cell becomes a `code` element (language fixed to `"python"`) when the
cell has any truthy text, and nothing otherwise; any other shape goes
through `_process_regular_table`. -/
def process_table (rows : List (List (List (List Run)))) :
    List ContentElement :=
  match rows with
  | [row] =>
    match row with
    | [cell] =>
      let cellText := cellCodeTexts cell
      if cellText.isEmpty then []
      else [ContentElement.code (pyJoinSep "\n" cellText) "python"]
    | _ => process_regular_table rows
  | _ => process_regular_table rows

/-- One step of the relationship scan of `extract_content_and_images`
(lines 80-87): keep a relationship whose type mentions `image`, whose
target lies under `media/`, and whose basename is tracked in the image
mapping; everything else is silently dropped. -/
def ridStep (imageMapping : List (String × String))
    (acc : List (String × String)) (rel : Relationship) :
    List (String × String) :=
  if strContainsStr rel.relType "image" then
    if pyStartsWith rel.target "media/" then
      match alLookup (pyBasename rel.target) imageMapping with
      | some newName => alInsert rel.id newName acc
      | none => acc
    else acc
  else acc

/-- The rId-to-image table built from `document.xml.rels`
(`extract_content_and_images`, lines 74-87). -/
def buildRidToImage (rels : List Relationship)
    (imageMapping : List (String × String)) : List (String × String) :=
  rels.foldl (ridStep imageMapping) []

/-- The image element emitted for a paragraph's drawing
(`_process_paragraph_formatted`, lines 214-227): an `image` element only
when a blip embed id is present, truthy, and resolves through the rId
table. -/
def paragraphImageElems (ridToImage : List (String × String))
    (p : DocParagraph) : List ContentElement :=
  match p.drawing with
  | some (some embedId) =>
    if embedId != "" then
      match alLookup embedId ridToImage with
      | some fn => [ContentElement.image fn ("../images/" ++ fn)]
      | none => []
    else []
  | some none => []
  | none => []

/-- The text-like element of a paragraph (lines 229-264): emitted when
the extracted text is truthy or no drawing was present; style names
classify title/heading levels, and numbering overrides them. -/
def paragraphTextElems (p : DocParagraph) : List ContentElement :=
  let text := extract_text_with_formatting p.runs
  if text != "" || p.drawing == none then
    let styled : ContentElement :=
      match p.style with
      | none => ContentElement.text text
      | some st =>
        let styleName := pyLower st.name
        if strContainsStr styleName "title" then ContentElement.title text
        else if strContainsStr styleName "heading 1" then
          ContentElement.heading1 text
        else if strContainsStr styleName "heading 2" then
          ContentElement.heading2 text
        else if strContainsStr styleName "heading 3" then
          ContentElement.heading3 text
        else ContentElement.text text
    match p.numbering with
    | some (lvl, nid) => [ContentElement.numberedList text lvl nid]
    | none => [styled]
  else []

/-- `_process_paragraph_formatted`: the image element (if any) followed
by the text-like element (if any). -/
def process_paragraph (ridToImage : List (String × String))
    (p : DocParagraph) : List ContentElement :=
  paragraphImageElems ridToImage p ++ paragraphTextElems p

/-! ## The Markdown renderer (`convert_to_markdown`) -/

/-- The renderer's loop state: `list_counters`, `prev_element`,
`in_list_context`, and the `markdown_lines` accumulated so far. -/
structure RenderState where
  listCounters : List (Nat × List (Nat × Nat))
  prevElement : Option ContentElement
  inListContext : Bool
  lines : List String
  deriving Repr, DecidableEq

def isNumberedEl : ContentElement → Bool
  | ContentElement.numberedList _ _ _ => true
  | _ => false

def isImageEl : ContentElement → Bool
  | ContentElement.image _ _ => true
  | _ => false

def isTableEl : ContentElement → Bool
  | ContentElement.table _ => true
  | _ => false

/-- Whether the previous element was a numbered list item. -/
def prevIsNumbered (s : RenderState) : Bool :=
  match s.prevElement with
  | some p => isNumberedEl p
  | none => false

/-- A text element with truthy stripped content. -/
def textNonblank : ContentElement → Bool
  | ContentElement.text c => pyStrip c != ""
  | _ => false

/-- The list-introduction cue phrases (line 354). -/
def cuePhrases : List String :=
  ["could instead:", "might:", "approach:", "following:", "these:"]

/-- A previous text element that looks like it introduces a new list
(lines 351-354): non-blank, and its lower-cased stripped content
contains one of the cue phrases. -/
def cueIntro : ContentElement → Bool
  | ContentElement.text c =>
    pyStrip c != "" &&
      cuePhrases.any (fun ph => strContainsStr (pyLower (pyStrip c)) ph)
  | _ => false

/-- `needs_extra_space` (lines 340-346): previous element a list item,
current one a non-blank text. -/
def needsExtraSpace (s : RenderState) (e : ContentElement) : Bool :=
  prevIsNumbered s && !isNumberedEl e && textNonblank e

/-- The non-list-to-list cue heuristic fires (lines 349-359). -/
def listResetByCue (s : RenderState) (e : ContentElement) : Bool :=
  isNumberedEl e &&
    (match s.prevElement with
     | some p => !isNumberedEl p && cueIntro p
     | none => false)

/-- `markdown_lines and markdown_lines[-1] != ''` (line 362). -/
def lastNonblank (ls : List String) : Bool :=
  match ls.getLast? with
  | some l => l != ""
  | none => false

/-- `'   ' * level`. -/
def indentStr (level : Nat) : String :=
  ⟨List.replicate (3 * level) ' '⟩

/-- The body of an emitted code block (lines 427-430): strip embedded
fence markers, then outer whitespace. -/
def codeBody (content : String) : String :=
  pyStrip (pyReplace (pyReplace content "```python" "") "```" "")

/-- The per-type emission (lines 365-451), applied to the state after
the cross-element heuristics; sets `prev_element` to the current
element in every branch. -/
def emitElement (s : RenderState) (e : ContentElement)
    (next? : Option ContentElement) : RenderState :=
  match e with
  | ContentElement.title c =>
    { s with lines := s.lines ++ ["# " ++ c, ""], prevElement := some e }
  | ContentElement.heading1 c =>
    { s with lines := s.lines ++ ["## " ++ c, ""], prevElement := some e }
  | ContentElement.heading2 c =>
    { s with lines := s.lines ++ ["### " ++ c, ""], prevElement := some e }
  | ContentElement.heading3 c =>
    { s with lines := s.lines ++ ["#### " ++ c, ""], prevElement := some e }
  | ContentElement.numberedList c lvl nid =>
    let inner := (alLookup nid s.listCounters).getD []
    let n := (alLookup lvl inner).getD 0 + 1
    let inner' := (alInsert lvl n inner).filter (fun q => decide (q.1 ≤ lvl))
    { listCounters := alInsert nid inner' s.listCounters,
      prevElement := some e,
      inListContext := true,
      lines := s.lines ++ [indentStr lvl ++ Nat.repr n ++ ". " ++ c] }
  | ContentElement.text c =>
    if pyStrip c != "" then
      let tailBlank : List String :=
        match next? with
        | some nx => if isNumberedEl nx then [] else [""]
        | none => []
      { s with lines := s.lines ++ [c] ++ tailBlank, prevElement := some e }
    else if !s.inListContext then
      { s with lines := s.lines ++ [""], prevElement := some e }
    else
      { s with prevElement := some e }
  | ContentElement.image fn path =>
    { s with lines := s.lines ++ ["![" ++ fn ++ "](" ++ path ++ ")", ""],
             prevElement := some e }
  | ContentElement.code c lang =>
    { s with lines := s.lines ++ ["```" ++ lang, codeBody c, "```", ""],
             prevElement := some e }
  | ContentElement.table data =>
    match data with
    | [] => { s with prevElement := some e }
    | r0 :: rest =>
      { s with prevElement := some e,
               lines := s.lines ++
                 ["| " ++ pyJoinSep " | " r0 ++ " |",
                  "| " ++ pyJoinSep " | " (r0.map (fun _ => "---")) ++ " |"] ++
                 rest.map (fun r => "| " ++ pyJoinSep " | " r ++ " |") ++ [""] }

/-- One iteration of the renderer loop: the two cross-element heuristics
(lines 337-363), the forced blank line, then the per-type emission.
`next?` is the one-element lookahead used by the text rule. -/
def renderStep (s : RenderState) (e : ContentElement)
    (next? : Option ContentElement) : RenderState :=
  let extra := needsExtraSpace s e
  let counters1 := if extra then [] else s.listCounters
  let inList1 := if extra then false else s.inListContext
  let cue := listResetByCue s e
  let counters2 :=
    if cue then
      match e with
      | ContentElement.numberedList _ _ nid => alErase nid counters1
      | _ => counters1
    else counters1
  let inList2 := if cue then true else inList1
  let lines1 :=
    if extra && lastNonblank s.lines then s.lines ++ [""] else s.lines
  emitElement
    { listCounters := counters2, prevElement := s.prevElement,
      inListContext := inList2, lines := lines1 } e next?

/-- The renderer loop over the element sequence. -/
def renderLoop : RenderState → List ContentElement → RenderState
  | s, [] => s
  | s, e :: rest => renderLoop (renderStep s e rest.head?) rest

/-- The initial loop state (lines 326-331). -/
def initState : RenderState :=
  { listCounters := [], prevElement := none, inListContext := false,
    lines := [] }

/-- The `markdown_lines` list after the loop. -/
def renderedLines (es : List ContentElement) : List String :=
  (renderLoop initState es).lines

/-- The duplicate-blank-line cleanup (lines 453-463): drop an empty line
whenever the previous kept line was empty. -/
def cleanupAux : Bool → List String → List String
  | _, [] => []
  | prevEmpty, l :: t =>
    if l = "" then
      if prevEmpty then cleanupAux true t else "" :: cleanupAux true t
    else l :: cleanupAux false t

/-- The cleaned line list. -/
def finalLines (es : List ContentElement) : List String :=
  cleanupAux false (renderedLines es)

/-- `convert_to_markdown` (the unused `doc_name` parameter of the source
is omitted): render, clean up duplicate blank lines, join with `\n`. -/
def convert_to_markdown (es : List ContentElement) : String :=
  pyJoinSep "\n" (finalLines es)

/-! ## Helpers used only to state the claims -/

/-- The renderer's counter for a (listId, level) pair. -/
def counterAt (s : RenderState) (nid lvl : Nat) : Option Nat :=
  alLookup lvl ((alLookup nid s.listCounters).getD [])

/-- The lines a run of same-list same-level items is expected to emit,
counting from `k`. -/
def numberedRunLines (lvl : Nat) : Nat → List String → List String
  | _, [] => []
  | k, t :: ts =>
    (indentStr lvl ++ Nat.repr k ++ ". " ++ t) :: numberedRunLines lvl (k + 1) ts

/-- A run holding a single `w:t` text, with the given bold/italic flags
expressed as presence of `w:b`/`w:i` without a `val` attribute. -/
def simpleRun (b i : Bool) (t : String) : Run :=
  { rPr := some { b := if b then some none else none,
                  i := if i then some none else none },
    texts := [some t] }

/-- Splitting a character list at newlines (`str.split('\n')`):
the lines of the final output. -/
def splitNlChars : List Char → List (List Char)
  | [] => [[]]
  | c :: t =>
    let r := splitNlChars t
    if c = '\n' then [] :: r
    else
      match r with
      | [] => [[c]]
      | h :: rest => (c :: h) :: rest

/-- Joining character-list lines with newlines. -/
def joinNlChars : List (List Char) → List Char
  | [] => []
  | [l] => l
  | l :: ls => l ++ '\n' :: joinNlChars ls

/-- Whether a character list mentions a newline. -/
def hasNlChar (l : List Char) : Bool :=
  l.any (fun c => c == '\n')

/-- No two adjacent entries of the line list are both empty. -/
def noTwoAdjacentEmpty : List String → Bool
  | [] => true
  | [_] => true
  | a :: b :: t =>
    !(a.data.isEmpty && b.data.isEmpty) && noTwoAdjacentEmpty (b :: t)

/-- No two adjacent character-list lines are both empty. -/
def noTwoAdjacentEmptyC : List (List Char) → Bool
  | [] => true
  | [_] => true
  | a :: b :: t => !(a.isEmpty && b.isEmpty) && noTwoAdjacentEmptyC (b :: t)

/-- The number of leading backticks of a character list. -/
def leadTicks (l : List Char) : Nat :=
  (l.takeWhile (fun c => c = '`')).length

/-! ## Basic lemmas about the Python primitives -/

theorem strConcat_single (s : String) : strConcat [s] = s := by
  show s ++ strConcat [] = s
  exact String.append_empty s

theorem pyStrip_empty : pyStrip "" = "" := rfl

theorem ne_empty_of_pyStrip_ne (c : String) (h : pyStrip c ≠ "") : c ≠ "" := by
  intro hc; subst hc; exact h rfl

theorem data_isEmpty_false_of_ne (s : String) (h : s ≠ "") :
    s.data.isEmpty = false := by
  cases s with
  | mk l =>
    cases l with
    | nil => exact absurd rfl h
    | cons c t => rfl

/-! ## Association-list lemmas -/

theorem alLookup_insert_self {κ α : Type} [DecidableEq κ] (k : κ) (v : α)
    (l : List (κ × α)) : alLookup k (alInsert k v l) = some v := by
  induction l with
  | nil => simp [alInsert, alLookup]
  | cons p t ih =>
    obtain ⟨k', v'⟩ := p
    by_cases h : k' = k
    · subst h; simp [alInsert, alLookup]
    · simp [alInsert, alLookup, h, ih]

theorem alLookup_insert_ne {κ α : Type} [DecidableEq κ] (k k' : κ) (v : α)
    (l : List (κ × α)) (h : k ≠ k') :
    alLookup k (alInsert k' v l) = alLookup k l := by
  have h' : ¬ k' = k := fun hh => h hh.symm
  induction l with
  | nil =>
    simp only [alInsert, alLookup]
    rw [if_neg h']
  | cons p t ih =>
    obtain ⟨k₀, v₀⟩ := p
    by_cases h0 : k₀ = k'
    · subst h0
      simp only [alInsert, if_pos rfl, alLookup]
      rw [if_neg h', if_neg h']
    · simp only [alInsert, if_neg h0, alLookup]
      by_cases h1 : k₀ = k
      · rw [if_pos h1, if_pos h1]
      · rw [if_neg h1, if_neg h1, ih]

theorem alLookup_erase_self {κ α : Type} [DecidableEq κ] (k : κ)
    (l : List (κ × α)) : alLookup k (alErase k l) = none := by
  induction l with
  | nil => rfl
  | cons p t ih =>
    obtain ⟨k₀, v₀⟩ := p
    by_cases h : k₀ = k
    · subst h; simpa [alErase, alLookup] using ih
    · simpa [alErase, alLookup, h] using ih

theorem alLookup_filter_gt {α : Type} (k lvl : Nat) (l : List (Nat × α))
    (h : lvl < k) :
    alLookup k (l.filter (fun q => decide (q.1 ≤ lvl))) = none := by
  induction l with
  | nil => rfl
  | cons p t ih =>
    obtain ⟨k₀, v₀⟩ := p
    by_cases hk : k₀ ≤ lvl
    · have hne : k₀ ≠ k := fun hh => absurd h (by omega)
      simpa [List.filter, hk, alLookup, hne] using ih
    · simpa [List.filter, hk] using ih

theorem alLookup_filter_le {α : Type} (k lvl : Nat) (l : List (Nat × α))
    (h : k ≤ lvl) :
    alLookup k (l.filter (fun q => decide (q.1 ≤ lvl))) = alLookup k l := by
  induction l with
  | nil => rfl
  | cons p t ih =>
    obtain ⟨k₀, v₀⟩ := p
    by_cases h0 : k₀ = k
    · subst h0; simp [List.filter, h, alLookup]
    · by_cases hk : k₀ ≤ lvl
      · simpa [List.filter, hk, alLookup, h0] using ih
      · simpa [List.filter, hk, alLookup, h0] using ih

/-! ## Characterizations of one renderer step -/

theorem renderStep_heading1 (s : RenderState) (c : String)
    (la : Option ContentElement) :
    renderStep s (ContentElement.heading1 c) la =
      { s with lines := s.lines ++ ["## " ++ c, ""],
               prevElement := some (ContentElement.heading1 c) } := by
  simp [renderStep, needsExtraSpace, isNumberedEl, textNonblank,
    listResetByCue, emitElement]

theorem renderStep_code (s : RenderState) (c lang : String)
    (la : Option ContentElement) :
    renderStep s (ContentElement.code c lang) la =
      { s with lines := s.lines ++ ["```" ++ lang, codeBody c, "```", ""],
               prevElement := some (ContentElement.code c lang) } := by
  simp [renderStep, needsExtraSpace, isNumberedEl, textNonblank,
    listResetByCue, emitElement]

theorem renderStep_text_nonblank (s : RenderState) (c : String)
    (la : Option ContentElement) (h : pyStrip c ≠ "") :
    renderStep s (ContentElement.text c) la =
      { listCounters := if prevIsNumbered s then [] else s.listCounters,
        prevElement := some (ContentElement.text c),
        inListContext := if prevIsNumbered s then false else s.inListContext,
        lines :=
          (if prevIsNumbered s && lastNonblank s.lines then s.lines ++ [""]
           else s.lines) ++ [c] ++
          (match la with
           | some nx => if isNumberedEl nx then [] else [""]
           | none => []) } := by
  have hb : (pyStrip c != "") = true := bne_iff_ne.mpr h
  cases hp : prevIsNumbered s <;>
    simp [renderStep, needsExtraSpace, isNumberedEl, textNonblank,
      listResetByCue, emitElement, hb, hp]

theorem renderStep_text_blank (s : RenderState)
    (la : Option ContentElement) :
    renderStep s (ContentElement.text "") la =
      { s with prevElement := some (ContentElement.text ""),
               lines := if s.inListContext then s.lines
                        else s.lines ++ [""] } := by
  simp only [renderStep, needsExtraSpace, isNumberedEl, textNonblank,
    listResetByCue, emitElement, cueIntro, pyStrip_empty]
  cases hl : s.inListContext <;> simp [hl]


theorem renderStep_numbered_of_not_cue (s : RenderState) (c : String)
    (lvl nid : Nat) (la : Option ContentElement)
    (h : listResetByCue s (ContentElement.numberedList c lvl nid) = false) :
    renderStep s (ContentElement.numberedList c lvl nid) la =
      { listCounters :=
          alInsert nid
            ((alInsert lvl
                ((alLookup lvl ((alLookup nid s.listCounters).getD [])).getD 0
                  + 1)
                ((alLookup nid s.listCounters).getD [])).filter
              (fun q => decide (q.1 ≤ lvl)))
            s.listCounters,
        prevElement := some (ContentElement.numberedList c lvl nid),
        inListContext := true,
        lines := s.lines ++
          [indentStr lvl ++
            Nat.repr
              ((alLookup lvl ((alLookup nid s.listCounters).getD [])).getD 0
                + 1) ++ ". " ++ c] } := by
  simp [renderStep, needsExtraSpace, isNumberedEl, textNonblank, h,
    emitElement]

theorem renderStep_numbered_of_cue (s : RenderState) (c : String)
    (lvl nid : Nat) (la : Option ContentElement)
    (h : listResetByCue s (ContentElement.numberedList c lvl nid) = true) :
    renderStep s (ContentElement.numberedList c lvl nid) la =
      { listCounters := alInsert nid [(lvl, 1)] (alErase nid s.listCounters),
        prevElement := some (ContentElement.numberedList c lvl nid),
        inListContext := true,
        lines := s.lines ++
          [indentStr lvl ++ Nat.repr 1 ++ ". " ++ c] } := by
  simp [renderStep, needsExtraSpace, isNumberedEl, textNonblank, h,
    emitElement, alLookup_erase_self, alLookup, alInsert, List.filter]

/-- The counter at the processed item's own (listId, level) slot, when
the cue heuristic did not fire: the previous value (0 when absent)
plus 1. -/
theorem counterAt_after_numbered (s : RenderState) (c : String)
    (lvl nid : Nat) (la : Option ContentElement)
    (h : listResetByCue s (ContentElement.numberedList c lvl nid) = false) :
    counterAt (renderStep s (ContentElement.numberedList c lvl nid) la)
        nid lvl =
      some ((counterAt s nid lvl).getD 0 + 1) := by
  rw [renderStep_numbered_of_not_cue s c lvl nid la h]
  show alLookup lvl ((alLookup nid _).getD []) = _
  simp only [alLookup_insert_self, Option.getD_some]
  rw [alLookup_filter_le lvl lvl _ (le_refl lvl), alLookup_insert_self]
  rfl

/-- The counter at the processed item's own slot when the cue heuristic
fired: exactly 1. -/
theorem counterAt_after_numbered_cue (s : RenderState) (c : String)
    (lvl nid : Nat) (la : Option ContentElement)
    (h : listResetByCue s (ContentElement.numberedList c lvl nid) = true) :
    counterAt (renderStep s (ContentElement.numberedList c lvl nid) la)
        nid lvl = some 1 := by
  rw [renderStep_numbered_of_cue s c lvl nid la h]
  show alLookup lvl ((alLookup nid _).getD []) = _
  simp [alLookup_insert_self, alLookup]

/-- C4: after processing a `NumberedListItem` with list id `nid` and
level `lvl`, the counter state for `nid` holds no entry at any level
strictly greater than `lvl`; consequently, in the concrete sequence
level-1, level-1, level-0, level-1 under one list id, the final level-1
item restarts at 1 instead of continuing at 3. -/
theorem C4_thm :
    (∀ (s : RenderState) (c : String) (lvl nid : Nat)
        (la : Option ContentElement) (l : Nat), lvl < l →
      alLookup l
        ((alLookup nid
          (RenderState.listCounters
            (renderStep s (ContentElement.numberedList c lvl nid) la))).getD
          []) = none) ∧
    convert_to_markdown
      [ContentElement.numberedList "a" 1 7, ContentElement.numberedList "b" 1 7,
       ContentElement.numberedList "c" 0 7, ContentElement.numberedList "d" 1 7]
      = "   1. a\n   2. b\n1. c\n   1. d" := by
  constructor
  · intro s c lvl nid la l hl
    by_cases hcue : listResetByCue s (ContentElement.numberedList c lvl nid)
      = true
    · rw [renderStep_numbered_of_cue s c lvl nid la hcue]
      simp only [alLookup_insert_self, Option.getD_some]
      simp only [alLookup]
      rw [if_neg (by omega)]
    · have hf : listResetByCue s (ContentElement.numberedList c lvl nid)
          = false := by simpa using hcue
      rw [renderStep_numbered_of_not_cue s c lvl nid la hf]
      simp only [alLookup_insert_self, Option.getD_some]
      exact alLookup_filter_gt l lvl _ hl
  · rfl

/-- C4 witness: the invariant evaluated at a concrete state and item. -/
theorem C4_witness :
    1 < 2 ∧
    alLookup 2
      ((alLookup 7
        (RenderState.listCounters
          (renderStep initState (ContentElement.numberedList "x" 1 7)
            none))).getD []) = none :=
  ⟨by decide, C4_thm.1 initState "x" 1 7 none 2 (by decide)⟩

/-- C5: when the previous element was a `NumberedListItem` and the current
is a non-blank `Text`, the renderer empties the whole counter state,
clears the list context, and inserts a single blank line before the text
(not duplicating an existing trailing blank); the spec's five-element
scenario renders `1. First`, `2. Second`, the remark, then `1. Third`. -/
theorem C5_thm :
    (∀ (s : RenderState) (c : String) (la : Option ContentElement),
      prevIsNumbered s = true → pyStrip c ≠ "" →
      (renderStep s (ContentElement.text c) la).listCounters = [] ∧
      (renderStep s (ContentElement.text c) la).inListContext = false ∧
      (renderStep s (ContentElement.text c) la).lines =
        (if lastNonblank s.lines then s.lines ++ [""] else s.lines) ++ [c] ++
        (match la with
         | some nx => if isNumberedEl nx then [] else [""]
         | none => [])) ∧
    convert_to_markdown
      [ContentElement.heading1 "Intro",
       ContentElement.numberedList "First" 0 5,
       ContentElement.numberedList "Second" 0 5,
       ContentElement.text "Some concluding remark.",
       ContentElement.numberedList "Third" 0 5]
      = "## Intro\n\n1. First\n2. Second\n\nSome concluding remark.\n1. Third"
      := by
  constructor
  · intro s c la hp h
    rw [renderStep_text_nonblank s c la h]
    simp [hp]
  · rfl

/-- C5 witness: the reset evaluated right after a concrete list item. -/
theorem C5_witness :
    prevIsNumbered
      (renderStep initState (ContentElement.numberedList "x" 0 1) none)
      = true ∧
    pyStrip "done" ≠ "" ∧
    ((renderStep
        (renderStep initState (ContentElement.numberedList "x" 0 1) none)
        (ContentElement.text "done") none).listCounters = [] ∧
     (renderStep
        (renderStep initState (ContentElement.numberedList "x" 0 1) none)
        (ContentElement.text "done") none).inListContext = false ∧
     (renderStep
        (renderStep initState (ContentElement.numberedList "x" 0 1) none)
        (ContentElement.text "done") none).lines =
       (if lastNonblank
          (RenderState.lines
            (renderStep initState (ContentElement.numberedList "x" 0 1)
              none)) then
          RenderState.lines
            (renderStep initState (ContentElement.numberedList "x" 0 1)
              none) ++ [""]
        else
          RenderState.lines
            (renderStep initState (ContentElement.numberedList "x" 0 1)
              none)) ++ ["done"] ++ []) :=
  ⟨by decide, by decide,
    C5_thm.1 (renderStep initState (ContentElement.numberedList "x" 0 1) none)
      "done" none (by decide) (by decide)⟩

/-- C8: an empty `Text` between two `NumberedListItem` elements of the
same list id and level emits no line and resets nothing (the list
context is active), so the second item's counter is exactly one greater
than the first's — numbering continues across empty spacer paragraphs. -/
theorem C8_thm :
    ∀ (s : RenderState) (t1 t2 : String) (lvl nid : Nat)
      (la1 la2 la3 : Option ContentElement) (s1 s2 s3 : RenderState),
      s1 = renderStep s (ContentElement.numberedList t1 lvl nid) la1 →
      s2 = renderStep s1 (ContentElement.text "") la2 →
      s3 = renderStep s2 (ContentElement.numberedList t2 lvl nid) la3 →
      s2.lines = s1.lines ∧ s2.listCounters = s1.listCounters ∧
      ∃ k, counterAt s1 nid lvl = some k ∧
        counterAt s3 nid lvl = some (k + 1) ∧
        s3.lines = s1.lines ++
          [indentStr lvl ++ Nat.repr (k + 1) ++ ". " ++ t2] := by
  intro s t1 t2 lvl nid la1 la2 la3 s1 s2 s3 h1 h2 h3
  -- facts about the state after the first list item
  have hprev : s1.prevElement
      = some (ContentElement.numberedList t1 lvl nid) := by
    by_cases hc : listResetByCue s (ContentElement.numberedList t1 lvl nid)
      = true
    · rw [h1, renderStep_numbered_of_cue s t1 lvl nid la1 hc]
    · rw [h1, renderStep_numbered_of_not_cue s t1 lvl nid la1
        (by simpa using hc)]
  have hinl : s1.inListContext = true := by
    by_cases hc : listResetByCue s (ContentElement.numberedList t1 lvl nid)
      = true
    · rw [h1, renderStep_numbered_of_cue s t1 lvl nid la1 hc]
    · rw [h1, renderStep_numbered_of_not_cue s t1 lvl nid la1
        (by simpa using hc)]
  have hctr : ∃ k, counterAt s1 nid lvl = some k := by
    by_cases hc : listResetByCue s (ContentElement.numberedList t1 lvl nid)
      = true
    · refine ⟨1, ?_⟩
      rw [h1]
      exact counterAt_after_numbered_cue s t1 lvl nid la1 hc
    · refine ⟨(counterAt s nid lvl).getD 0 + 1, ?_⟩
      rw [h1]
      exact counterAt_after_numbered s t1 lvl nid la1 (by simpa using hc)
  -- the empty text changes neither lines nor counters
  have hs2 : s2 = { s1 with prevElement := some (ContentElement.text ""),
                            lines := s1.lines } := by
    rw [h2, renderStep_text_blank, hinl]
    simp
  have hs2lines : s2.lines = s1.lines := by rw [hs2]
  have hs2ctrs : s2.listCounters = s1.listCounters := by rw [hs2]
  have hs2prev : s2.prevElement = some (ContentElement.text "") := by
    rw [hs2]
  -- the cue heuristic cannot fire after an empty text
  have hc3 : listResetByCue s2 (ContentElement.numberedList t2 lvl nid)
      = false := by
    simp [listResetByCue, hs2prev, cueIntro, isNumberedEl, pyStrip_empty]
  obtain ⟨k, hk⟩ := hctr
  have hk2 : counterAt s2 nid lvl = some k := by
    unfold counterAt; rw [hs2ctrs]; exact hk
  refine ⟨hs2lines, hs2ctrs, k, hk, ?_, ?_⟩
  · rw [h3, counterAt_after_numbered s2 t2 lvl nid la3 hc3, hk2]
    rfl
  · rw [h3, renderStep_numbered_of_not_cue s2 t2 lvl nid la3 hc3]
    show s2.lines ++ _ = _
    rw [hs2lines]
    have : (alLookup lvl ((alLookup nid s2.listCounters).getD [])).getD 0
        = k := by
      have hx : counterAt s2 nid lvl = some k := hk2
      unfold counterAt at hx
      rw [hx]
      rfl
    rw [this]

/-- C8 witness: the continuation of numbering across an empty spacer
paragraph, at a concrete three-element sequence. -/
theorem C8_witness :
    RenderState.lines
        (renderStep
          (renderStep (renderStep initState
            (ContentElement.numberedList "a" 0 3) none)
            (ContentElement.text "") none)
          (ContentElement.numberedList "b" 0 3) none) =
      RenderState.lines
        (renderStep initState (ContentElement.numberedList "a" 0 3) none) ++
      [indentStr 0 ++ Nat.repr 2 ++ ". " ++ "b"] := by
  have h := C8_thm initState "a" "b" 0 3 none none none
    (renderStep initState (ContentElement.numberedList "a" 0 3) none)
    (renderStep (renderStep initState
      (ContentElement.numberedList "a" 0 3) none)
      (ContentElement.text "") none)
    (renderStep
      (renderStep (renderStep initState
        (ContentElement.numberedList "a" 0 3) none)
        (ContentElement.text "") none)
      (ContentElement.numberedList "b" 0 3) none)
    rfl rfl rfl
  obtain ⟨-, -, k, hk1, -, hk3⟩ := h
  have hkval : k = 1 := by
    have : counterAt
        (renderStep initState (ContentElement.numberedList "a" 0 3) none)
        3 0 = some 1 := by decide
    rw [this] at hk1
    exact (Option.some_inj.mp hk1).symm
  rw [hk3, hkval]

/-! ## C6: inline run formatting -/

theorem isBold_simpleRun (b i : Bool) (t : String) :
    isBold (simpleRun b i t) = b := by
  cases b <;> rfl

theorem isItalic_simpleRun (b i : Bool) (t : String) :
    isItalic (simpleRun b i t) = i := by
  cases b <;> cases i <;> rfl

theorem runParts_simpleRun (b i : Bool) (t : String) (h : t ≠ "") :
    runParts (simpleRun b i t) = [wrapRunText b i t] := by
  have hb : (t != "") = true := bne_iff_ne.mpr h
  unfold runParts
  rw [isBold_simpleRun, isItalic_simpleRun]
  show ((([some t].filterMap id).filter (fun x => x != "")).map
    (wrapRunText b i)) = _
  simp [List.filterMap, List.filter, hb]

/-- C6: run-level extraction wraps a bold-and-italic run in triple
asterisks, a bold-only run in double, an italic-only run in single,
leaves an unformatted run as plain text, and concatenates the runs in
order with no separators, for any combination of non-empty-text runs in
one paragraph. -/
theorem C6_thm :
    ∀ (rs : List (Bool × Bool × String)), (∀ x ∈ rs, x.2.2 ≠ "") →
      extract_text_with_formatting
          (rs.map (fun x => simpleRun x.1 x.2.1 x.2.2)) =
        strConcat (rs.map (fun x =>
          if x.1 && x.2.1 then "***" ++ x.2.2 ++ "***"
          else if x.1 then "**" ++ x.2.2 ++ "**"
          else if x.2.1 then "*" ++ x.2.2 ++ "*"
          else x.2.2)) := by
  intro rs h
  induction rs with
  | nil => rfl
  | cons x rest ih =>
    obtain ⟨b, i, t⟩ := x
    have ht : t ≠ "" := h (b, i, t) (List.mem_cons_self _ _)
    have hrest := ih (fun y hy => h y (List.mem_cons_of_mem _ hy))
    simp only [List.map_cons, extract_text_with_formatting, strConcat]
      at hrest ⊢
    rw [runParts_simpleRun b i t ht]
    rw [hrest]
    simp [strConcat, String.append_empty, wrapRunText]

/-- C6 witness: all four flag combinations in one paragraph. -/
theorem C6_witness :
    (∀ x ∈ [(true, true, "a"), (true, false, "b"), (false, true, "c"),
        (false, false, "d")], x.2.2 ≠ ("" : String)) ∧
    extract_text_with_formatting
        ([(true, true, "a"), (true, false, "b"), (false, true, "c"),
          (false, false, "d")].map (fun x => simpleRun x.1 x.2.1 x.2.2)) =
      "***a*****b***c*d" :=
  ⟨by decide,
    (C6_thm [(true, true, "a"), (true, false, "b"), (false, true, "c"),
      (false, false, "d")] (by decide)).trans (by decide)⟩

/-! ## C9: trailing text gets no blank line -/

/-- Processing a final non-blank text (no lookahead) appends exactly the
text line at the very end. -/
theorem renderLoop_last_text (c : String) (h : pyStrip c ≠ "") :
    ∀ (es : List ContentElement) (s : RenderState),
      ∃ pre, (renderLoop s (es ++ [ContentElement.text c])).lines
        = pre ++ [c] := by
  intro es
  induction es with
  | nil =>
    intro s
    show ∃ pre,
      (renderLoop (renderStep s (ContentElement.text c) none) []).lines
        = pre ++ [c]
    rw [renderLoop, renderStep_text_nonblank s c none h]
    refine ⟨(if prevIsNumbered s && lastNonblank s.lines then s.lines ++ [""]
      else s.lines), ?_⟩
    simp
  | cons e rest ih =>
    intro s
    show ∃ pre,
      (renderLoop (renderStep s e (rest ++ [ContentElement.text c]).head?)
        (rest ++ [ContentElement.text c])).lines = pre ++ [c]
    exact ih _

/-- The cleanup pass keeps a final non-empty line in final position. -/
theorem cleanupAux_last (c : String) (h : c ≠ "") :
    ∀ (ls : List String) (b : Bool),
      ∃ pre, cleanupAux b (ls ++ [c]) = pre ++ [c] := by
  intro ls
  induction ls with
  | nil =>
    intro b
    refine ⟨[], ?_⟩
    simp [cleanupAux, h]
  | cons l rest ih =>
    intro b
    by_cases hl : l = ""
    · subst hl
      obtain ⟨pre, hpre⟩ := ih true
      cases b
      · exact ⟨"" :: pre, by simpa [cleanupAux] using hpre⟩
      · exact ⟨pre, by simpa [cleanupAux] using hpre⟩
    · obtain ⟨pre, hpre⟩ := ih false
      exact ⟨l :: pre, by simpa [cleanupAux, hl] using hpre⟩

/-- C9: when a non-blank `Text` element ends the input, the renderer
emits its line with no blank line after it — the cleaned output's last
line is the text itself (the absent successor behaves like a following
`NumberedListItem`); in particular a single text paragraph renders as
itself. -/
theorem C9_thm :
    (∀ (es : List ContentElement) (c : String), pyStrip c ≠ "" →
      (finalLines (es ++ [ContentElement.text c])).getLast? = some c) ∧
    convert_to_markdown [ContentElement.text "hello"] = "hello" := by
  constructor
  · intro es c h
    obtain ⟨pre1, hpre1⟩ := renderLoop_last_text c h es initState
    have hc : c ≠ "" := ne_empty_of_pyStrip_ne c h
    obtain ⟨pre2, hpre2⟩ := cleanupAux_last c hc pre1 false
    unfold finalLines renderedLines
    rw [hpre1, hpre2]
    exact List.getLast?_concat _
  · rfl

/-- C9 witness: a heading followed by a final text paragraph. -/
theorem C9_witness :
    pyStrip "The end." ≠ "" ∧
    (finalLines
      ([ContentElement.heading1 "Intro"] ++
        [ContentElement.text "The end."])).getLast? = some "The end." :=
  ⟨by decide, C9_thm.1 [ContentElement.heading1 "Intro"] "The end."
    (by decide)⟩

/-! ## C1: 1x1 tables as code blocks -/

theorem cleanupAux_fence (b : String) :
    cleanupAux false ["```python", b, "```", ""]
      = ["```python", b, "```", ""] := by
  by_cases hb : b = ""
  · subst hb; rfl
  · simp [cleanupAux, hb]

/-- C1 counterexample: a table with exactly one row and one cell whose
cell carries no text produces no element at all — in particular it is
not rendered as a fenced code block, contradicting the claim that a 1x1
table is always rendered as one. -/
theorem C1_counterexample :
    process_table [[([] : List (List Run))]] = [] ∧
    convert_to_markdown (process_table [[([] : List (List Run))]]) = "" :=
  ⟨rfl, rfl⟩

/-- C1 (amended): a 1x1 table never yields a `Table` element; when its
cell has at least one paragraph with truthy text it yields exactly one
`Code` element with language `"python"` whose content is the cell's
paragraph texts joined by newlines, rendered as a fenced code block
whose body is that content after removing embedded ```` ```python ````
and ```` ``` ```` markers and stripping outer whitespace; a 1x1 table
with no truthy text produces no element and no output. -/
theorem C1_amended_thm :
    ∀ (cell : List (List Run)),
      (∀ e ∈ process_table [[cell]], isTableEl e = false) ∧
      (cellCodeTexts cell = [] → process_table [[cell]] = []) ∧
      (cellCodeTexts cell ≠ [] →
        process_table [[cell]] =
          [ContentElement.code (pyJoinSep "\n" (cellCodeTexts cell))
            "python"] ∧
        convert_to_markdown (process_table [[cell]]) =
          pyJoinSep "\n"
            ["```python",
             codeBody (pyJoinSep "\n" (cellCodeTexts cell)), "```", ""]) := by
  intro cell
  have hpt : process_table [[cell]] =
      if (cellCodeTexts cell).isEmpty then []
      else [ContentElement.code (pyJoinSep "\n" (cellCodeTexts cell))
        "python"] := rfl
  by_cases hc : cellCodeTexts cell = []
  · rw [hpt]
    simp [hc]
  · have hne : (cellCodeTexts cell).isEmpty = false := by
      cases hcc : cellCodeTexts cell with
      | nil => exact absurd hcc hc
      | cons a t => rfl
    have hpt2 : process_table [[cell]] =
        [ContentElement.code (pyJoinSep "\n" (cellCodeTexts cell))
          "python"] := by
      rw [hpt, hne]
      simp
    refine ⟨?_, fun h => absurd h hc, fun _ => ⟨hpt2, ?_⟩⟩
    · intro e he
      rw [hpt2] at he
      simp only [List.mem_singleton] at he
      subst he
      rfl
    · rw [hpt2]
      show pyJoinSep "\n" (finalLines _) = _
      unfold finalLines renderedLines
      rw [show renderLoop initState
          [ContentElement.code (pyJoinSep "\n" (cellCodeTexts cell))
            "python"] =
          renderStep initState
            (ContentElement.code (pyJoinSep "\n" (cellCodeTexts cell))
              "python") none from rfl]
      rw [renderStep_code]
      show pyJoinSep "\n" (cleanupAux false
        ["```" ++ "python",
         codeBody (pyJoinSep "\n" (cellCodeTexts cell)), "```", ""]) = _
      rw [show ("```" ++ "python" : String) = "```python" from rfl]
      rw [cleanupAux_fence]

/-- C1 witness: a 1x1 table with one text paragraph, rendered as a
Python-tagged fenced code block. -/
theorem C1_witness :
    cellCodeTexts [[{ rPr := none, texts := [some "x"] }]] ≠ [] ∧
    process_table [[[[{ rPr := none, texts := [some "x"] }]]]] =
      [ContentElement.code
        (pyJoinSep "\n"
          (cellCodeTexts [[{ rPr := none, texts := [some "x"] }]]))
        "python"] ∧
    convert_to_markdown
        (process_table [[[[{ rPr := none, texts := [some "x"] }]]]]) =
      pyJoinSep "\n"
        ["```python",
         codeBody (pyJoinSep "\n"
           (cellCodeTexts [[{ rPr := none, texts := [some "x"] }]])),
         "```", ""] :=
  ⟨by decide,
    (C1_amended_thm [[{ rPr := none, texts := [some "x"] }]]).2.2
      (by decide)⟩

/-! ## C3: counters along a run of list items -/

/-- Inside a run of numbered items (previous element already a list
item), counting continues one by one from the recorded counter. -/
theorem renderLoop_run_aux :
    ∀ (ts : List String) (s : RenderState) (k lvl nid : Nat),
      prevIsNumbered s = true → counterAt s nid lvl = some k →
      (renderLoop s
        (ts.map (fun t => ContentElement.numberedList t lvl nid))).lines
        = s.lines ++ numberedRunLines lvl (k + 1) ts := by
  intro ts
  induction ts with
  | nil =>
    intro s k lvl nid _ _
    simp [renderLoop, numberedRunLines]
  | cons t rest ih =>
    intro s k lvl nid hprev hctr
    have hcue : listResetByCue s (ContentElement.numberedList t lvl nid)
        = false := by
      simp only [listResetByCue]
      cases hp : s.prevElement with
      | none => rfl
      | some p =>
        have hn : isNumberedEl p = true := by
          simpa [prevIsNumbered, hp] using hprev
        simp [hn]
    show (renderLoop
      (renderStep s (ContentElement.numberedList t lvl nid)
        ((rest.map (fun t => ContentElement.numberedList t lvl nid)).head?))
      (rest.map (fun t => ContentElement.numberedList t lvl nid))).lines = _
    set s' := renderStep s (ContentElement.numberedList t lvl nid)
      ((rest.map (fun t => ContentElement.numberedList t lvl nid)).head?)
      with hs'
    have hgetd : (alLookup lvl ((alLookup nid s.listCounters).getD [])).getD 0
        = k := by
      have hx := hctr
      unfold counterAt at hx
      rw [hx]
      rfl
    have hprev' : prevIsNumbered s' = true := by
      rw [hs', renderStep_numbered_of_not_cue s t lvl nid _ hcue]
      rfl
    have hctr' : counterAt s' nid lvl = some (k + 1) := by
      rw [hs', counterAt_after_numbered s t lvl nid _ hcue]
      show some ((counterAt s nid lvl).getD 0 + 1) = _
      rw [hctr]
      rfl
    have hlines' : s'.lines = s.lines ++
        [indentStr lvl ++ Nat.repr (k + 1) ++ ". " ++ t] := by
      rw [hs', renderStep_numbered_of_not_cue s t lvl nid _ hcue]
      show s.lines ++ _ = _
      rw [hgetd]
    rw [ih s' (k + 1) lvl nid hprev' hctr', hlines']
    simp [numberedRunLines]

/-- C3 counterexample: a heading interrupts two runs under the same list
id and level without resetting any counter, so the one-element run after
the heading renders with counter 2, not 1 as the claim requires of every
run with no intervening counter reset. -/
theorem C3_counterexample :
    convert_to_markdown
      [ContentElement.numberedList "a" 0 5, ContentElement.heading1 "h",
       ContentElement.numberedList "b" 0 5] = "1. a\n## h\n\n2. b" := rfl

/-- C3 (amended): a run of N consecutive `NumberedListItem` elements
sharing a list id and level renders counters exactly 1..N — each line
the 3·level-space indent, the decimal counter, `. `, and the item text —
provided the counter state holds no entry for that (listId, level) when
the run starts (as at the start of a document or after a reset);
otherwise counting continues from the recorded value. -/
theorem C3_amended_thm :
    ∀ (ts : List String) (s : RenderState) (lvl nid : Nat),
      counterAt s nid lvl = none →
      (renderLoop s
        (ts.map (fun t => ContentElement.numberedList t lvl nid))).lines
        = s.lines ++ numberedRunLines lvl 1 ts := by
  intro ts s lvl nid h
  cases ts with
  | nil => simp [renderLoop, numberedRunLines]
  | cons t rest =>
    show (renderLoop
      (renderStep s (ContentElement.numberedList t lvl nid)
        ((rest.map (fun t => ContentElement.numberedList t lvl nid)).head?))
      (rest.map (fun t => ContentElement.numberedList t lvl nid))).lines = _
    set s' := renderStep s (ContentElement.numberedList t lvl nid)
      ((rest.map (fun t => ContentElement.numberedList t lvl nid)).head?)
      with hs'
    have hfacts : prevIsNumbered s' = true ∧
        counterAt s' nid lvl = some 1 ∧
        s'.lines = s.lines ++
          [indentStr lvl ++ Nat.repr 1 ++ ". " ++ t] := by
      by_cases hcue : listResetByCue s (ContentElement.numberedList t lvl nid)
        = true
      · refine ⟨?_, ?_, ?_⟩
        · rw [hs', renderStep_numbered_of_cue s t lvl nid _ hcue]
          rfl
        · rw [hs']
          exact counterAt_after_numbered_cue s t lvl nid _ hcue
        · rw [hs', renderStep_numbered_of_cue s t lvl nid _ hcue]
      · have hf : listResetByCue s (ContentElement.numberedList t lvl nid)
            = false := by simpa using hcue
        have hgetd :
            (alLookup lvl ((alLookup nid s.listCounters).getD [])).getD 0
            = 0 := by
          have hx := h
          unfold counterAt at hx
          rw [hx]
          rfl
        refine ⟨?_, ?_, ?_⟩
        · rw [hs', renderStep_numbered_of_not_cue s t lvl nid _ hf]
          rfl
        · rw [hs', counterAt_after_numbered s t lvl nid _ hf]
          show some ((counterAt s nid lvl).getD 0 + 1) = _
          rw [h]
          rfl
        · rw [hs', renderStep_numbered_of_not_cue s t lvl nid _ hf]
          show s.lines ++ _ = _
          rw [hgetd]
    obtain ⟨hprev', hctr', hlines'⟩ := hfacts
    rw [renderLoop_run_aux rest s' 1 lvl nid hprev' hctr', hlines']
    simp [numberedRunLines]

/-- C3 witness: a fresh two-item run at level 1 renders counters 1, 2
with three-space indentation. -/
theorem C3_witness :
    counterAt initState 3 1 = none ∧
    RenderState.lines
        (renderLoop initState
          (["x", "y"].map (fun t => ContentElement.numberedList t 1 3))) =
      RenderState.lines initState ++ numberedRunLines 1 1 ["x", "y"] :=
  ⟨rfl, C3_amended_thm ["x", "y"] initState 1 3 rfl⟩

/-! ## C7: unresolved images are dropped silently -/

/-- Scanning relationships never introduces a table entry for an id all
of whose relationships point at untracked image names. -/
theorem ridScan_lookup_none :
    ∀ (rels : List Relationship) (im : List (String × String))
      (rid : String) (acc : List (String × String)),
      alLookup rid acc = none →
      (∀ rel ∈ rels, rel.id = rid →
        alLookup (pyBasename rel.target) im = none) →
      alLookup rid (rels.foldl (ridStep im) acc) = none := by
  intro rels im rid
  induction rels with
  | nil =>
    intro acc hacc _
    exact hacc
  | cons rel rest ih =>
    intro acc hacc hall
    show alLookup rid (rest.foldl (ridStep im) (ridStep im acc rel)) = none
    refine ih (ridStep im acc rel) ?_
      (fun r hr => hall r (List.mem_cons_of_mem _ hr))
    unfold ridStep
    by_cases h1 : strContainsStr rel.relType "image" = true
    · by_cases h2 : pyStartsWith rel.target "media/" = true
      · cases hlk : alLookup (pyBasename rel.target) im with
        | none => simpa [h1, h2, hlk] using hacc
        | some fn =>
          have hne : rid ≠ rel.id := by
            intro he
            have hz := hall rel (List.mem_cons_self _ _) he.symm
            rw [hz] at hlk
            cases hlk
          simpa [h1, h2, hlk] using
            (alLookup_insert_ne rid rel.id fn acc hne).trans hacc
      · simpa [h1, h2] using hacc
    · simpa [h1] using hacc

/-- A paragraph whose drawing's embed id is absent from the rId table
contributes no image element at all. -/
theorem paragraphImageElems_unresolved (tbl : List (String × String))
    (p : DocParagraph) (eid : String)
    (hdraw : p.drawing = some (some eid))
    (hlk : alLookup eid tbl = none) :
    paragraphImageElems tbl p = [] := by
  unfold paragraphImageElems
  rw [hdraw]
  by_cases he : (eid != "") = true
  · simp [he, hlk]
  · simp [he]

/-- The text-like elements of a paragraph are never image elements. -/
theorem paragraphTextElems_no_image (p : DocParagraph) :
    ∀ e ∈ paragraphTextElems p, isImageEl e = false := by
  intro e he
  unfold paragraphTextElems at he
  by_cases hcond :
      (extract_text_with_formatting p.runs != "" || p.drawing == none) = true
  · rw [if_pos hcond] at he
    cases hnum : p.numbering with
    | some ln =>
      obtain ⟨lvl, nid⟩ := ln
      rw [hnum] at he
      simp only [List.mem_singleton] at he
      subst he
      rfl
    | none =>
      rw [hnum] at he
      simp only [List.mem_singleton] at he
      subst he
      cases hst : p.style with
      | none => rfl
      | some st =>
        simp only [hst]
        split <;> first | rfl | (split <;> first | rfl | (split <;>
          first | rfl | (split <;> rfl)))
  · rw [if_neg hcond] at he
    cases he

/-- C7: an image relationship whose target names an untracked image file
is silently omitted from the rId table; a paragraph whose drawing's
relationship id is absent from the table yields no `Image` element; and
such a paragraph with no text renders to nothing at all. -/
theorem C7_thm :
    (∀ (rels : List Relationship) (im : List (String × String))
        (rid : String),
      (∀ rel ∈ rels, rel.id = rid →
        alLookup (pyBasename rel.target) im = none) →
      alLookup rid (buildRidToImage rels im) = none) ∧
    (∀ (tbl : List (String × String)) (p : DocParagraph) (eid : String),
      p.drawing = some (some eid) → alLookup eid tbl = none →
      ∀ e ∈ process_paragraph tbl p, isImageEl e = false) ∧
    convert_to_markdown
      (process_paragraph []
        { drawing := some (some "rId9"), runs := [], style := none,
          numbering := none }) = "" := by
  refine ⟨?_, ?_, rfl⟩
  · intro rels im rid hall
    exact ridScan_lookup_none rels im rid [] rfl hall
  · intro tbl p eid hdraw hlk e he
    unfold process_paragraph at he
    rw [paragraphImageElems_unresolved tbl p eid hdraw hlk] at he
    rw [List.nil_append] at he
    exact paragraphTextElems_no_image p e he

/-- C7 witness: a concrete untracked relationship and a concrete
unresolved drawing. -/
theorem C7_witness :
    (∀ rel ∈ [Relationship.mk "http://sch/image" "rId1" "media/miss.png"],
      rel.id = "rId1" →
      alLookup (pyBasename rel.target) ([] : List (String × String))
        = none) ∧
    alLookup "rId1"
      (buildRidToImage
        [Relationship.mk "http://sch/image" "rId1" "media/miss.png"] [])
      = none ∧
    (∀ e ∈ process_paragraph []
        { drawing := some (some "rId9"), runs := [], style := none,
          numbering := none },
      isImageEl e = false) :=
  ⟨by decide,
    C7_thm.1 [Relationship.mk "http://sch/image" "rId1" "media/miss.png"]
      [] "rId1" (by decide),
    C7_thm.2.1 []
      { drawing := some (some "rId9"), runs := [], style := none,
        numbering := none } "rId9" rfl rfl⟩

/-! ## C2: blank-line collapsing -/

/-- After the cleanup pass has just dropped or kept an empty line
(flag true), the next kept line is never empty. -/
theorem cleanup_head_ne :
    ∀ (t : List String) (x : String),
      (cleanupAux true t).head? = some x → x.data.isEmpty = false := by
  intro t
  induction t with
  | nil =>
    intro x hx
    cases hx
  | cons l rest ih =>
    intro x hx
    by_cases hl : l = ""
    · subst hl
      rw [show cleanupAux true ("" :: rest) = cleanupAux true rest from by
        simp [cleanupAux]] at hx
      exact ih x hx
    · rw [show cleanupAux true (l :: rest) = l :: cleanupAux false rest from
        by simp [cleanupAux, hl]] at hx
      simp only [List.head?_cons, Option.some_inj] at hx
      subst hx
      exact data_isEmpty_false_of_ne l hl

theorem noAdj_cons_nonempty (a : String) (ha : a.data.isEmpty = false)
    (X : List String) (hX : noTwoAdjacentEmpty X = true) :
    noTwoAdjacentEmpty (a :: X) = true := by
  cases X with
  | nil => rfl
  | cons b t =>
    show (!(a.data.isEmpty && b.data.isEmpty) &&
      noTwoAdjacentEmpty (b :: t)) = true
    simp [ha, hX]

theorem noAdj_cons_head (a : String) (X : List String)
    (hhead : ∀ x, X.head? = some x → x.data.isEmpty = false)
    (hX : noTwoAdjacentEmpty X = true) :
    noTwoAdjacentEmpty (a :: X) = true := by
  cases X with
  | nil => rfl
  | cons b t =>
    have hb := hhead b rfl
    show (!(a.data.isEmpty && b.data.isEmpty) &&
      noTwoAdjacentEmpty (b :: t)) = true
    simp [hb, hX]

/-- The cleanup pass leaves no two adjacent empty lines. -/
theorem cleanup_noAdj :
    ∀ (ls : List String) (b : Bool),
      noTwoAdjacentEmpty (cleanupAux b ls) = true := by
  intro ls
  induction ls with
  | nil => intro b; rfl
  | cons l rest ih =>
    intro b
    by_cases hl : l = ""
    · subst hl
      cases b
      · rw [show cleanupAux false ("" :: rest) = "" :: cleanupAux true rest
          from by simp [cleanupAux]]
        exact noAdj_cons_head "" _ (cleanup_head_ne rest) (ih true)
      · rw [show cleanupAux true ("" :: rest) = cleanupAux true rest from by
          simp [cleanupAux]]
        exact ih true
    · rw [show cleanupAux b (l :: rest) = l :: cleanupAux false rest from by
        simp [cleanupAux, hl]]
      exact noAdj_cons_nonempty l (data_isEmpty_false_of_ne l hl) _
        (ih false)

/-- `'\n'.join` at the character level. -/
theorem data_pyJoinSep :
    ∀ (ss : List String),
      (pyJoinSep "\n" ss).data = joinNlChars (ss.map (fun s => s.data)) := by
  intro ss
  induction ss with
  | nil => rfl
  | cons s rest ih =>
    cases rest with
    | nil => rfl
    | cons s2 rest2 =>
      show (s ++ "\n" ++ pyJoinSep "\n" (s2 :: rest2)).data =
        joinNlChars (s.data :: (s2 :: rest2).map (fun s => s.data))
      rw [String.data_append, String.data_append, ih]
      show s.data ++ ['\n'] ++ _ = s.data ++ '\n' :: _
      simp

/-- Splitting a newline-free line gives the line back. -/
theorem split_no_nl :
    ∀ (l : List Char), hasNlChar l = false → splitNlChars l = [l] := by
  intro l
  induction l with
  | nil => intro _; rfl
  | cons c t ih =>
    intro h
    simp only [hasNlChar, List.any_cons, Bool.or_eq_false_iff] at h
    have hcne : ¬ (c = '\n') := by
      intro he
      rw [he] at h
      exact absurd h.1 (by simp)
    have ht : hasNlChar t = false := h.2
    show splitNlChars (c :: t) = [c :: t]
    simp only [splitNlChars]
    rw [if_neg hcne, ih ht]

/-- Splitting after a newline-free prefix peels that prefix off. -/
theorem split_prepend :
    ∀ (xs ys : List Char), hasNlChar xs = false →
      splitNlChars (xs ++ '\n' :: ys) = xs :: splitNlChars ys := by
  intro xs
  induction xs with
  | nil =>
    intro ys _
    show splitNlChars ('\n' :: ys) = [] :: splitNlChars ys
    simp [splitNlChars]
  | cons c t ih =>
    intro ys h
    simp only [hasNlChar, List.any_cons, Bool.or_eq_false_iff] at h
    have hcne : ¬ (c = '\n') := by
      intro he
      rw [he] at h
      exact absurd h.1 (by simp)
    have ht : hasNlChar t = false := h.2
    show splitNlChars (c :: (t ++ '\n' :: ys)) = (c :: t) :: splitNlChars ys
    simp only [splitNlChars]
    rw [if_neg hcne, ih ys ht]

/-- Splitting the join of newline-free lines recovers the lines. -/
theorem split_join :
    ∀ (ls : List (List Char)), ls ≠ [] →
      (∀ l ∈ ls, hasNlChar l = false) →
      splitNlChars (joinNlChars ls) = ls := by
  intro ls
  induction ls with
  | nil => intro h _; exact absurd rfl h
  | cons l rest ih =>
    intro _ hall
    cases rest with
    | nil => exact split_no_nl l (hall l (List.mem_cons_self _ _))
    | cons l2 r2 =>
      show splitNlChars (l ++ '\n' :: joinNlChars (l2 :: r2))
        = l :: l2 :: r2
      rw [split_prepend l _ (hall l (List.mem_cons_self _ _))]
      rw [ih (by simp) (fun x hx => hall x (List.mem_cons_of_mem _ hx))]

theorem noAdjC_map :
    ∀ (ls : List String),
      noTwoAdjacentEmptyC (ls.map (fun s => s.data))
        = noTwoAdjacentEmpty ls := by
  intro ls
  induction ls with
  | nil => rfl
  | cons a rest ih =>
    cases rest with
    | nil => rfl
    | cons b r2 =>
      show (!(a.data.isEmpty && b.data.isEmpty) &&
          noTwoAdjacentEmptyC ((b :: r2).map (fun s => s.data))) = _
      rw [ih]
      rfl

/-- C2 counterexample: a text element whose content embeds a blank-line
run passes through the cleanup untouched (the pass only collapses empty
entries of the line list), so the final output contains two consecutive
blank lines, contradicting the claim for arbitrary element sequences. -/
theorem C2_counterexample :
    convert_to_markdown [ContentElement.text "a\n\n\nb"] = "a\n\n\nb" ∧
    noTwoAdjacentEmptyC
      (splitNlChars
        (convert_to_markdown [ContentElement.text "a\n\n\nb"]).data)
      = false :=
  ⟨rfl, by decide⟩

/-- C2 (amended): the cleanup pass leaves no two adjacent empty entries
in the rendered line list, and whenever no emitted line itself contains
a newline character, the final joined Markdown string contains no run of
two or more consecutive blank lines.  (An element whose content embeds
newline characters can still carry consecutive blank lines through.) -/
theorem C2_amended_thm :
    ∀ (es : List ContentElement),
      noTwoAdjacentEmpty (finalLines es) = true ∧
      ((∀ l ∈ finalLines es, hasNlChar l.data = false) →
        noTwoAdjacentEmptyC (splitNlChars (convert_to_markdown es).data)
          = true) := by
  intro es
  refine ⟨cleanup_noAdj (renderedLines es) false, ?_⟩
  intro hall
  have hno : noTwoAdjacentEmpty (finalLines es) = true :=
    cleanup_noAdj (renderedLines es) false
  show noTwoAdjacentEmptyC
    (splitNlChars (pyJoinSep "\n" (finalLines es)).data) = true
  rw [data_pyJoinSep (finalLines es)]
  cases hfl : finalLines es with
  | nil => rfl
  | cons l rest =>
    rw [split_join ((l :: rest).map (fun s => s.data)) (by simp) ?_]
    · rw [noAdjC_map]
      rw [hfl] at hno
      exact hno
    · intro x hx
      obtain ⟨l', hl', rfl⟩ := List.mem_map.mp hx
      rw [hfl] at hall
      exact hall l' hl'

/-- C2 witness: two plain paragraphs — the cleaned line list and the
final string both show single blank separators only. -/
theorem C2_witness :
    (∀ l ∈ finalLines [ContentElement.text "alpha",
        ContentElement.text "beta"], hasNlChar l.data = false) ∧
    noTwoAdjacentEmptyC
      (splitNlChars
        (convert_to_markdown [ContentElement.text "alpha",
          ContentElement.text "beta"]).data) = true :=
  ⟨by decide,
    (C2_amended_thm [ContentElement.text "alpha",
      ContentElement.text "beta"]).2 (by decide)⟩

/-! ## C10: emitted code bodies never contain a fence marker -/

theorem isPrefixOf_exists :
    ∀ (p l : List Char), p.isPrefixOf l = true ↔ ∃ r, l = p ++ r := by
  intro p
  induction p with
  | nil =>
    intro l
    simp [List.isPrefixOf]
  | cons a as ih =>
    intro l
    cases l with
    | nil =>
      simp [List.isPrefixOf]
    | cons b bs =>
      simp only [List.isPrefixOf, Bool.and_eq_true, beq_iff_eq]
      constructor
      · rintro ⟨hab, hpre⟩
        obtain ⟨r, hr⟩ := (ih bs).mp hpre
        exact ⟨r, by rw [hab, hr]; rfl⟩
      · rintro ⟨r, hr⟩
        injection hr with h1 h2
        exact ⟨h1.symm, (ih bs).mpr ⟨r, h2⟩⟩

theorem hasSubList_iff :
    ∀ (pat l : List Char),
      hasSubList pat l = true ↔ ∃ a b, l = a ++ pat ++ b := by
  intro pat l
  induction l with
  | nil =>
    show pat.isEmpty = true ↔ _
    constructor
    · intro h
      have : pat = [] := by
        cases pat with
        | nil => rfl
        | cons x xs => cases h
      exact ⟨[], [], by rw [this]; rfl⟩
    · rintro ⟨a, b, hab⟩
      cases a with
      | cons a0 as => cases hab
      | nil =>
        cases pat with
        | nil => rfl
        | cons p0 ps => cases hab
  | cons c t ih =>
    simp only [hasSubList, Bool.or_eq_true]
    constructor
    · rintro (hpre | hsub)
      · obtain ⟨r, hr⟩ := (isPrefixOf_exists pat (c :: t)).mp hpre
        exact ⟨[], r, by rw [hr]; rfl⟩
      · obtain ⟨a, b, hab⟩ := ih.mp hsub
        exact ⟨c :: a, b, by rw [hab]; rfl⟩
    · rintro ⟨a, b, hab⟩
      cases a with
      | nil =>
        left
        exact (isPrefixOf_exists pat (c :: t)).mpr
          ⟨b, by simpa using hab⟩
      | cons a0 as =>
        right
        injection hab with h1 h2
        exact ih.mpr ⟨as, b, h2⟩

/-- `strip` only cuts material off both ends. -/
theorem stripChars_decomp (l : List Char) :
    ∃ x y, l = x ++ pyStripChars l ++ y := by
  refine ⟨l.takeWhile pyWhitespace,
    ((l.dropWhile pyWhitespace).reverse.takeWhile pyWhitespace).reverse, ?_⟩
  conv_lhs => rw [← List.takeWhile_append_dropWhile pyWhitespace l]
  rw [List.append_assoc]
  congr 1
  conv_lhs => rw [← List.reverse_reverse (l.dropWhile pyWhitespace),
    ← List.takeWhile_append_dropWhile pyWhitespace
      (l.dropWhile pyWhitespace).reverse]
  rw [List.reverse_append]
  rfl

/-- Stripping cannot create a substring occurrence. -/
theorem hasSub_strip_false (pat l : List Char)
    (h : hasSubList pat l = false) :
    hasSubList pat (pyStripChars l) = false := by
  cases hx : hasSubList pat (pyStripChars l) with
  | false => rfl
  | true =>
    obtain ⟨a, b, hab⟩ := (hasSubList_iff pat (pyStripChars l)).mp hx
    obtain ⟨x, y, hxy⟩ := stripChars_decomp l
    have hdecomp : l = (x ++ a) ++ pat ++ (b ++ y) := by
      rw [hxy, hab]
      simp [List.append_assoc]
    have ht : hasSubList pat l = true :=
      (hasSubList_iff pat l).mpr ⟨x ++ a, b ++ y, hdecomp⟩
    rw [h] at ht
    cases ht

theorem leadTicks_cons_tick (l : List Char) :
    leadTicks ('`' :: l) = 1 + leadTicks l := by
  simp [leadTicks, List.takeWhile]
  omega

theorem leadTicks_cons_ne (c : Char) (l : List Char) (h : ¬ c = '`') :
    leadTicks (c :: l) = 0 := by
  simp [leadTicks, List.takeWhile, h]

theorem leadTicks_le_one_of_two_prefix_false (t : List Char)
    (h : (['`', '`'] : List Char).isPrefixOf t = false) :
    leadTicks t ≤ 1 := by
  cases t with
  | nil => simp [leadTicks]
  | cons c2 t2 =>
    by_cases hc2 : c2 = '`'
    · subst hc2
      cases t2 with
      | nil => simp [leadTicks, List.takeWhile]
      | cons c3 t3 =>
        by_cases hc3 : c3 = '`'
        · subst hc3
          simp [List.isPrefixOf] at h
        · rw [leadTicks_cons_tick, leadTicks_cons_ne c3 t3 hc3]
    · rw [leadTicks_cons_ne c2 t2 hc2]
      omega

theorem two_prefix_false_of_leadTicks_le_one (t : List Char)
    (h : leadTicks t ≤ 1) :
    (['`', '`'] : List Char).isPrefixOf t = false := by
  cases t with
  | nil => rfl
  | cons c2 t2 =>
    by_cases hc2 : c2 = '`'
    · subst hc2
      cases t2 with
      | nil => rfl
      | cons c3 t3 =>
        by_cases hc3 : c3 = '`'
        · subst hc3
          rw [leadTicks_cons_tick, leadTicks_cons_tick] at h
          omega
        · show (('`' == '`') && (['`'] : List Char).isPrefixOf (c3 :: t3))
            = false
          have : (('`' : Char) == c3) = false := by
            simpa using fun he => hc3 he.symm
          simp [List.isPrefixOf, this]
    · show ((('`' : Char) == c2) && _) = false
      have : (('`' : Char) == c2) = false := by
        simpa using fun he => hc2 he.symm
      simp [this]

/-- Replacing every occurrence of three backticks by nothing leaves no
occurrence of three backticks; the leading-backtick count of the result
is the original count modulo 3. -/
theorem replaceTicks_main :
    ∀ (fuel : Nat) (l : List Char), l.length ≤ fuel →
      hasSubList ['`', '`', '`'] (pyReplaceAux ['`', '`', '`'] [] fuel l)
        = false ∧
      leadTicks (pyReplaceAux ['`', '`', '`'] [] fuel l)
        = leadTicks l % 3 := by
  intro fuel
  induction fuel with
  | zero =>
    intro l hl
    have hnil : l = [] := List.eq_nil_of_length_eq_zero (Nat.le_zero.mp hl)
    subst hnil
    exact ⟨rfl, rfl⟩
  | succ n ih =>
    intro l hl
    cases l with
    | nil => exact ⟨rfl, rfl⟩
    | cons c t =>
      by_cases hp : (['`', '`', '`'] : List Char) ≠ [] ∧
          (['`', '`', '`'] : List Char).isPrefixOf (c :: t) = true
      · obtain ⟨r, hr⟩ := (isPrefixOf_exists _ _).mp hp.2
        have hr' : c :: t = '`' :: '`' :: '`' :: r := hr
        injection hr' with h1 h2
        subst h1
        subst h2
        have hlen : r.length ≤ n := by
          simp only [List.length_cons] at hl
          omega
        obtain ⟨ha, hb⟩ := ih r hlen
        simp only [pyReplaceAux]
        rw [if_pos hp]
        show hasSubList ['`', '`', '`']
            ([] ++ pyReplaceAux ['`', '`', '`'] [] n r) = false ∧
          leadTicks ([] ++ pyReplaceAux ['`', '`', '`'] [] n r)
            = leadTicks ('`' :: '`' :: '`' :: r) % 3
        simp only [List.nil_append]
        refine ⟨ha, ?_⟩
        rw [hb, leadTicks_cons_tick, leadTicks_cons_tick,
          leadTicks_cons_tick]
        omega
      · have ht : t.length ≤ n := by
          simp only [List.length_cons] at hl
          omega
        obtain ⟨ha, hb⟩ := ih t ht
        simp only [pyReplaceAux]
        rw [if_neg hp]
        by_cases hc : c = '`'
        · subst hc
          have hpre : (['`', '`', '`'] : List Char).isPrefixOf ('`' :: t)
              = false := by
            cases hx : (['`', '`', '`'] : List Char).isPrefixOf ('`' :: t)
              with
            | false => rfl
            | true => exact absurd ⟨by simp, hx⟩ hp
          have htwo : (['`', '`'] : List Char).isPrefixOf t = false := by
            simpa [List.isPrefixOf] using hpre
          have hltt : leadTicks t ≤ 1 :=
            leadTicks_le_one_of_two_prefix_false t htwo
          have hlX : leadTicks (pyReplaceAux ['`', '`', '`'] [] n t) ≤ 1 := by
            rw [hb]
            omega
          have htwoX : (['`', '`'] : List Char).isPrefixOf
              (pyReplaceAux ['`', '`', '`'] [] n t) = false :=
            two_prefix_false_of_leadTicks_le_one _ hlX
          constructor
          · simp only [hasSubList, Bool.or_eq_false_iff]
            refine ⟨?_, ha⟩
            simp [List.isPrefixOf, htwoX]
          · rw [leadTicks_cons_tick, leadTicks_cons_tick, hb]
            omega
        · have hcb : (('`' : Char) == c) = false := by
            simpa using fun he => hc he.symm
          constructor
          · simp only [hasSubList, Bool.or_eq_false_iff]
            refine ⟨?_, ha⟩
            simp [List.isPrefixOf, hcb]
          · rw [leadTicks_cons_ne c _ hc, leadTicks_cons_ne c t hc]

/-- C10: the body of every emitted fenced code block contains no
occurrence of three consecutive backticks — every embedded fence marker
(including ones that were legitimate content) is removed before the
outer fences are emitted — and the code element's emitted lines are
exactly the open fence, the cleaned body, the close fence, and a blank
line. -/
theorem C10_thm :
    ∀ (content : String) (s : RenderState) (lang : String)
      (la : Option ContentElement),
      hasSubList "```".data (codeBody content).data = false ∧
      (renderStep s (ContentElement.code content lang) la).lines =
        s.lines ++ ["```" ++ lang, codeBody content, "```", ""] := by
  intro content s lang la
  constructor
  · show hasSubList ['`', '`', '`']
      (pyStripChars
        (pyReplaceAux ['`', '`', '`'] []
          (pyReplace content "```python" "").data.length
          (pyReplace content "```python" "").data)) = false
    apply hasSub_strip_false
    exact (replaceTicks_main (pyReplace content "```python" "").data.length
      (pyReplace content "```python" "").data (le_refl _)).1
  · rw [renderStep_code]
